import Mathlib

/-!
Shallow embedding of the retrieval-and-reranking pipeline of the job-description
MCP server (files `mcp_server/lib/rerank.py`, `mcp_server/lib/supabase.py`,
`mcp_server/lib/embeddings.py`, `mcp_server/api.py`).

External collaborators (the Cohere rerank endpoint, the Supabase vector-store
RPC and the OpenAI embedding endpoint) are modelled as oracle functions whose
`none` result stands for any raised exception (timeout, error status, malformed
response).  Every embedded operation additionally returns a trace of the
external calls it issued, so that claims about which calls are made (and with
which arguments) are statable.  Floating-point scores are modelled as `Rat`.

The Cohere client constant `MAX_BATCH_SIZE` is kept as a parameter
`max_batch_size` of the orchestrator functions (the source instance sets it to
the constant 1000, recorded below as `MAX_BATCH_SIZE`); the constant
`MAX_DOC_LENGTH` is 512 as in the source.
-/

/-- Python `sep.join(xs)`. -/
def pyJoin (sep : String) : List String → String
  | [] => ""
  | [x] => x
  | x :: y :: ys => x ++ sep ++ pyJoin sep (y :: ys)

/-- Python `text.split()` with no argument: split on whitespace runs,
dropping empty pieces. -/
def pySplit (s : String) : List String :=
  (s.split Char.isWhitespace).filter (fun w => w != "")

/-- Python `s.strip()`: remove leading and trailing whitespace. -/
def pyStrip (s : String) : String :=
  String.mk (((s.toList.dropWhile Char.isWhitespace).reverse.dropWhile
    Char.isWhitespace).reverse)

/-- `truncate_document` from `rerank.py`: keep the first `max_length`
whitespace-separated words, appending an ellipsis marker if truncated. -/
def truncate_document (text : String) (max_length : Nat := 512) : String :=
  let words := pySplit text
  if words.length ≤ max_length then text
  else pyJoin " " (words.take max_length) ++ "..."

/-- One step of the stable descending insertion sort `pySortDescBy`:
insert `x` in front of the first element whose key is not strictly
greater than `key x`. -/
def insertDesc {α : Type} (key : α → Rat) (x : α) : List α → List α
  | [] => [x]
  | y :: ys => if key x < key y then y :: insertDesc key x ys else x :: y :: ys

/-- The model of Python `sorted(l, key, reverse True)`: a stable sort,
descending in the key.  Elements with equal keys keep their relative order. -/
def pySortDescBy {α : Type} (key : α → Rat) : List α → List α
  | [] => []
  | x :: xs => insertDesc key x (pySortDescBy key xs)

/-- A candidate record (one dict flowing through the pipeline).  `similarity`
is the vector-store score (`x.get('similarity', 0)` reads it with default 0,
hence `Option`); `cohere_score` and `rerank_position` are absent until the
record has passed through a successful rerank. -/
structure Doc where
  id : Nat
  content : String
  similarity : Option Rat
  cohere_score : Option Rat
  rerank_position : Option Nat
deriving DecidableEq

/-- The sort key used by the cross-batch fusion sort:
`x.get('cohere_score', 0)`. -/
def cohereKey (d : Doc) : Rat := d.cohere_score.getD 0

/-- The sort key used by the pre-filter sort: `x.get('similarity', 0)`. -/
def similarityKey (d : Doc) : Rat := d.similarity.getD 0

/-- One entry of a Cohere rerank response: an index into the submitted
document list plus a relevance score. -/
structure RerankResult where
  index : Nat
  relevance_score : Rat
deriving DecidableEq

/-- The external Cohere rerank endpoint: query, document texts, requested
top-k.  `none` models any raised exception. -/
def CohereOracle := String → List String → Nat → Option (List RerankResult)

/-- A record of one `client.rerank` invocation, for call traces. -/
structure RerankCall where
  query : String
  documents : List String
  top_k : Nat
deriving DecidableEq

/-- The response-to-documents mapping loop of `rerank_batch`
(`documents[result.index]` plus score and 1-based position assignment);
`none` models the `IndexError` raised on an out-of-range index, which the
surrounding `except` turns into the fallback. -/
def mapResults (documents : List Doc) : List RerankResult → Nat → Option (List Doc)
  | [], _ => some []
  | r :: rs, pos =>
    match documents.get? r.index with
    | none => none
    | some d =>
      (mapResults documents rs (pos + 1)).map
        (fun tl =>
          { d with cohere_score := some r.relevance_score,
                   rerank_position := some pos } :: tl)

/-- `rerank_batch` from `rerank.py`.  The Python parameter `top_k` defaults to
`None` and is read as `top_k or batch_size`; both `None` and `0` are falsy, so
the `Nat` value `0` models that case.  On any failure of the external call
(or of the response mapping) the batch's input documents are returned
unchanged, truncated to the clamped top-k.  The second component is the trace
of attempted `client.rerank` calls. -/
def rerank_batch (oracle : CohereOracle) (query : String) (documents : List Doc)
    (top_k : Nat) : List Doc × List RerankCall :=
  if documents.isEmpty then ([], [])
  else
    let doc_texts := documents.map (fun d => truncate_document d.content 512)
    let batch_size := doc_texts.length
    let actual_top_k := min (if top_k = 0 then batch_size else top_k) batch_size
    let call : RerankCall := ⟨query, doc_texts, actual_top_k⟩
    match oracle query doc_texts actual_top_k with
    | none => (documents.take actual_top_k, [call])
    | some results =>
      match mapResults documents results 1 with
      | none => (documents.take actual_top_k, [call])
      | some reranked => (reranked, [call])

/-- `math.ceil(n / b)` for naturals. -/
def ceilDiv (n b : Nat) : Nat := (n + b - 1) / b

/-- The consecutive batches `documents[i*b : min((i+1)*b, n)]` for
`i < ceil(n/b)`, as computed by `_rerank_multiple_batches`. -/
def batchesOf {α : Type} (b : Nat) (l : List α) : List (List α) :=
  (List.range (ceilDiv l.length b)).map (fun i => (l.drop (i * b)).take b)

/-- `_rerank_multiple_batches` from `rerank.py`: rerank each batch with
`top_k` of `max(10, final_top_k * 2)`, concatenate the batch results, sort by
`cohere_score` descending (Python `sorted` is stable) and keep the first
`final_top_k`. -/
def rerank_multiple_batches (oracle : CohereOracle) (query : String)
    (documents : List Doc) (final_top_k : Nat) (max_batch_size : Nat) :
    List Doc × List RerankCall :=
  let per_batch_top_k := max 10 (final_top_k * 2)
  let processed := (batchesOf max_batch_size documents).map
    (fun batch => rerank_batch oracle query batch per_batch_top_k)
  let all_reranked := (processed.map Prod.fst).flatten
  ((pySortDescBy cohereKey all_reranked).take final_top_k,
   (processed.map Prod.snd).flatten)

/-- The Cohere client's per-request document limit (`self.MAX_BATCH_SIZE`). -/
def MAX_BATCH_SIZE : Nat := 1000

/-- The pre-filter step of `rerank_large_corpus` (`rerank.py` lines 104-112):
when the input exceeds `pre_filter_top_k`, keep the top `pre_filter_top_k`
documents by similarity, otherwise leave the input unchanged. -/
def pre_filtered (documents : List Doc) (pre_filter_top_k : Nat) : List Doc :=
  if pre_filter_top_k < documents.length then
    (pySortDescBy similarityKey documents).take pre_filter_top_k
  else documents

/-- `rerank_large_corpus` from `rerank.py`: empty input short-circuits;
oversized input is pre-filtered to the top `pre_filter_top_k` by similarity;
a set that fits in one batch goes through a single `rerank_batch` call with
`top_k` equal to `final_top_k`, otherwise through the multi-batch path. -/
def rerank_large_corpus (oracle : CohereOracle) (query : String)
    (documents : List Doc) (final_top_k : Nat) (pre_filter_top_k : Nat)
    (max_batch_size : Nat := MAX_BATCH_SIZE) : List Doc × List RerankCall :=
  if documents.length = 0 then ([], [])
  else
    let documents1 := pre_filtered documents pre_filter_top_k
    if documents1.length ≤ max_batch_size then
      rerank_batch oracle query documents1 final_top_k
    else
      rerank_multiple_batches oracle query documents1 final_top_k max_batch_size

/-- `build_enhanced_query` from `rerank.py`: the query string actually sent to
the reranker, assembled from the title, department and requirements inside a
fixed template and stripped of surrounding whitespace. -/
def build_enhanced_query (title department : String) (requirements : List String)
    (current_year : Nat := 2024) : String :=
  let temporal_context := "Current " ++ toString current_year ++ " job posting"
  let req_context :=
    if requirements.isEmpty then "Open to various technical backgrounds"
    else "Must have: " ++ pyJoin ", " requirements
  let query :=
    "\n        " ++ temporal_context ++ " for " ++ title ++ " position in "
      ++ department ++ " department.\n        " ++ req_context
      ++ "\n        \n        Looking for job descriptions with:\n        - Modern development practices and tools\n        - Current market compensation and benefits  \n        - Recent technology requirements\n        - Relevant experience levels and qualifications\n        \n        Prioritize recent, well-structured job descriptions that match the role requirements.\n        "
  pyStrip query

/-- `rerank_job_descriptions` from `rerank.py`.  `cohere` is `none` when the
`CohereReranker` constructor raises (no API key configured); the surrounding
`except` then returns the original chunks truncated to `final_count`. -/
def rerank_job_descriptions (cohere : Option CohereOracle)
    (title department : String) (requirements : List String)
    (similar_chunks : List Doc) (final_count : Nat) :
    List Doc × List RerankCall :=
  if similar_chunks.isEmpty then ([], [])
  else
    match cohere with
    | none => (similar_chunks.take final_count, [])
    | some oracle =>
      let query := build_enhanced_query title department requirements
      rerank_large_corpus oracle query similar_chunks final_count
        (min 1000 similar_chunks.length) MAX_BATCH_SIZE

/-- The external vector-store RPC (`match_jobs`): embedding and match count
in, candidate records out.  `none` models a raised exception (the Python
`result.data` being falsy yields the empty list either way). -/
def VectorOracle := List Rat → Nat → Option (List Doc)

/-- `search_similar_job_descriptions` from `supabase.py`: issue the RPC with
the caller's `match_count` unchanged; on any exception fall back to the empty
list.  The second component records the single RPC attempt (embedding and
match count as sent). -/
def search_similar_job_descriptions (store : VectorOracle)
    (query_embedding : List Rat) (match_count : Nat) :
    List Doc × List (List Rat × Nat) :=
  (match store query_embedding match_count with
   | some data => data
   | none => [],
   [(query_embedding, match_count)])

/-- `search_with_reranking` from `supabase.py` (the pipeline resolve step):
vector search, empty short-circuit, optional reranking, otherwise plain
truncation of the vector results. -/
def search_with_reranking (store : VectorOracle) (cohere : Option CohereOracle)
    (title department : String) (requirements : List String)
    (query_embedding : List Rat) (final_count : Nat) (initial_retrieval : Nat)
    (use_reranking : Bool) : List Doc :=
  let vector_results :=
    (search_similar_job_descriptions store query_embedding initial_retrieval).1
  if vector_results.isEmpty then []
  else if use_reranking then
    (rerank_job_descriptions cohere title department requirements
      vector_results final_count).1
  else
    vector_results.take final_count

/-- The adaptive pre-filter policy inlined in
`search_large_corpus_with_reranking` (`supabase.py` lines 132-137). -/
def targetRetrievalCount (corpus_size : Int) : Nat :=
  if 15000 ≤ corpus_size then 1500
  else if 5000 ≤ corpus_size then 800
  else 500

/-- `search_large_corpus_with_reranking` from `supabase.py`. -/
def search_large_corpus_with_reranking (store : VectorOracle)
    (cohere : Option CohereOracle) (title department : String)
    (requirements : List String) (query_embedding : List Rat)
    (corpus_size : Int) (final_count : Nat) : List Doc :=
  search_with_reranking store cohere title department requirements
    query_embedding final_count (targetRetrievalCount corpus_size) true

/-- Error outcomes of `embed` (`embeddings.py`), collapsed to the kinds the
claims distinguish: `valueError` for the input-validation and
response-validation `ValueError`s, `envError` for a missing or empty API key,
`transportError` for connection, timeout or HTTP errors. -/
inductive EmbedError
  | valueError
  | envError
  | transportError
deriving DecidableEq

/-- The sanitisation step of `embed`: drop control characters other than
newline, carriage return and tab. -/
def pySanitize (s : String) : String :=
  String.mk (s.toList.filter (fun c => 32 ≤ c.toNat || c == '\n' || c == '\r' || c == '\t'))

/-- The external OpenAI embedding endpoint: sanitised text in, the extracted
embedding vector out; `none` models any transport failure or a response whose
structure the validation code rejects before reaching the vector. -/
def EmbedOracle := String → Option (List Rat)

/-- `embed` from `embeddings.py`: blank check, length check, sanitisation and
API-key check all happen before the network call; the dimension of the
returned vector is validated to be 1536.  The `Bool` component records
whether the network endpoint was called at all. -/
def embed (net : EmbedOracle) (has_api_key : Bool) (text : String) :
    Except EmbedError (List Rat) × Bool :=
  if text.toList.all Char.isWhitespace then (Except.error EmbedError.valueError, false)
  else if 32000 < text.length then (Except.error EmbedError.valueError, false)
  else
    let sanitized_text := pySanitize text
    if !has_api_key then (Except.error EmbedError.envError, false)
    else
      match net sanitized_text with
      | none => (Except.error EmbedError.transportError, true)
      | some embedding =>
        if embedding.length = 1536 then (Except.ok embedding, true)
        else (Except.error EmbedError.valueError, true)

/-- The derived search text of `search_and_generate_tool` (`api.py` line 109):
the Python f-string joining title, department and the space-joined
requirements with single spaces. -/
def searchText (title department : String) (requirements : List String) : String :=
  title ++ " " ++ department ++ " " ++ pyJoin " " requirements

/-- Outcome of one `search_and_generate_tool` run: either the prompt built
from the retrieved chunks, or the error message produced by the generic
exception handlers (no result list in that case). -/
inductive ToolOutcome
  | prompt (similar_chunks : List Doc)
  | errorMessage (e : EmbedError)
deriving DecidableEq

/-- `search_and_generate_tool` from `api.py`: build the search text, embed it,
retrieve the top 5 similar chunks, and assemble the prompt (the prompt's
string formatting is outside the core; the outcome carries the chunk list the
prompt is built from).  Exceptions from `embed` are caught and turned into an
error-message outcome.  The trailing components trace whether the embedding
network call happened, which vector-store RPCs were issued, and the search
text that was handed to `embed`. -/
def search_and_generate_tool (net : EmbedOracle) (has_api_key : Bool)
    (store : VectorOracle) (title department : String)
    (requirements : List String) :
    ToolOutcome × Bool × List (List Rat × Nat) × String :=
  let search_text := searchText title department requirements
  match embed net has_api_key search_text with
  | (Except.error e, called) => (ToolOutcome.errorMessage e, called, [], search_text)
  | (Except.ok query_embedding, called) =>
    let res := search_similar_job_descriptions store query_embedding 5
    (ToolOutcome.prompt res.1, called, res.2, search_text)

/-- A well-behaved reranking provider, per the external contract: a successful
response to a (clamped) `top_k` request contains exactly `top_k` entries, each
indexing into the submitted document list. -/
def CompleteOracle (oracle : CohereOracle) : Prop :=
  ∀ q ds k, k ≤ ds.length → ∀ rs, oracle q ds k = some rs →
    rs.length = k ∧ ∀ r ∈ rs, r.index < ds.length

/-- The concatenation of the per-batch rerank results inside
`rerank_multiple_batches` (the `all_reranked` accumulator). -/
def all_batch_results (oracle : CohereOracle) (query : String)
    (documents : List Doc) (final_top_k : Nat) (max_batch_size : Nat) :
    List Doc :=
  ((batchesOf max_batch_size documents).map
    (fun batch => (rerank_batch oracle query batch (max 10 (final_top_k * 2))).1)).flatten

/-- The text list submitted to the reranking provider for a batch. -/
def batchTexts (documents : List Doc) : List String :=
  documents.map (fun d => truncate_document d.content 512)

/-- The single `client.rerank` call record a non-empty batch gives rise to. -/
def batchCall (query : String) (documents : List Doc) (top_k : Nat) : RerankCall :=
  ⟨query, batchTexts documents, min top_k documents.length⟩

/-- A synthetic candidate used by concrete instantiations. -/
def wDoc (i : Nat) : Doc := ⟨i, "content", some 1, none, none⟩

/-- A reranking provider stub that answers every request for `k` results with
the first `k` indices, each scored 1. -/
def completeStubOracle : CohereOracle :=
  fun _ _ k => some ((List.range k).map (fun i => ⟨i, 1⟩))

/-- A reranking provider stub whose every call fails. -/
def failingOracle : CohereOracle := fun _ _ _ => none

/-- A reranking provider stub that answers a two-document batch with the two
indices swapped, both with relevance score 1, and any other batch with its
first index scored 1. -/
def swapStubOracle : CohereOracle := fun _ ds _ =>
  if ds.length = 2 then some [⟨1, 1⟩, ⟨0, 1⟩] else some [⟨0, 1⟩]

/-- A candidate with a low similarity score. -/
def loDoc : Doc := ⟨0, "content", some 1, none, none⟩

/-- A candidate with a high similarity score. -/
def hiDoc : Doc := ⟨1, "content", some 9, none, none⟩

/-- A string all of whose characters are whitespace (the strings Python's
`text.strip()` maps to the empty string; the empty string included). -/
def blankStr (s : String) : Prop := ∀ c ∈ s.data, c.isWhitespace = true

instance blankStr.dec (s : String) : Decidable (blankStr s) :=
  inferInstanceAs (Decidable (∀ c ∈ s.data, c.isWhitespace = true))

/-! ## Properties of the stable descending sort -/

theorem insertDesc_perm {α : Type} (key : α → Rat) (x : α) (l : List α) :
    (insertDesc key x l).Perm (x :: l) := by
  induction l with
  | nil => simp [insertDesc]
  | cons y ys ih =>
    by_cases h : key x < key y
    · simp only [insertDesc, if_pos h]
      exact ((ih.cons y).trans (List.Perm.swap x y ys))
    · simp [insertDesc, if_neg h]

theorem pySortDescBy_perm {α : Type} (key : α → Rat) (l : List α) :
    (pySortDescBy key l).Perm l := by
  induction l with
  | nil => simp [pySortDescBy]
  | cons x xs ih =>
    exact (insertDesc_perm key x (pySortDescBy key xs)).trans (ih.cons x)

theorem pySortDescBy_length {α : Type} (key : α → Rat) (l : List α) :
    (pySortDescBy key l).length = l.length :=
  (pySortDescBy_perm key l).length_eq

theorem mem_pySortDescBy {α : Type} (key : α → Rat) (l : List α) (x : α) :
    x ∈ pySortDescBy key l ↔ x ∈ l :=
  (pySortDescBy_perm key l).mem_iff

theorem insertDesc_sorted {α : Type} (key : α → Rat) (x : α) (l : List α)
    (h : List.Sorted (fun a b => key b ≤ key a) l) :
    List.Sorted (fun a b => key b ≤ key a) (insertDesc key x l) := by
  induction l with
  | nil => simp [insertDesc]
  | cons y ys ih =>
    rw [List.sorted_cons] at h
    by_cases hxy : key x < key y
    · simp only [insertDesc, if_pos hxy]
      rw [List.sorted_cons]
      refine ⟨?_, ih h.2⟩
      intro b hb
      rcases List.mem_cons.mp ((insertDesc_perm key x ys).mem_iff.mp hb) with hb | hb
      · exact hb ▸ le_of_lt hxy
      · exact h.1 b hb
    · simp only [insertDesc, if_neg hxy]
      rw [List.sorted_cons]
      push_neg at hxy
      refine ⟨?_, List.sorted_cons.mpr h⟩
      intro b hb
      rcases List.mem_cons.mp hb with hb | hb
      · exact hb ▸ hxy
      · exact le_trans (h.1 b hb) hxy

theorem pySortDescBy_sorted {α : Type} (key : α → Rat) (l : List α) :
    List.Sorted (fun a b => key b ≤ key a) (pySortDescBy key l) := by
  induction l with
  | nil => simp [pySortDescBy]
  | cons x xs ih => exact insertDesc_sorted key x _ ih

theorem insertDesc_filter_eq {α : Type} (key : α → Rat) (c : Rat) (x : α)
    (l : List α) (hx : key x = c) :
    (insertDesc key x l).filter (fun y => key y == c)
      = x :: l.filter (fun y => key y == c) := by
  induction l with
  | nil => simp [insertDesc, List.filter, hx]
  | cons y ys ih =>
    by_cases hxy : key x < key y
    · have hy : (key y == c) = false := by
        rw [beq_eq_false_iff_ne]
        intro hyc
        exact absurd hxy (by rw [hx, hyc]; exact lt_irrefl c)
      simp only [insertDesc, if_pos hxy, List.filter, hy, ih]
    · simp only [insertDesc, if_neg hxy]
      have hxb : (key x == c) = true := by rwa [beq_iff_eq]
      simp [List.filter, hxb]

theorem insertDesc_filter_ne {α : Type} (key : α → Rat) (c : Rat) (x : α)
    (l : List α) (hx : key x ≠ c) :
    (insertDesc key x l).filter (fun y => key y == c)
      = l.filter (fun y => key y == c) := by
  have hxb : (key x == c) = false := by rwa [beq_eq_false_iff_ne]
  induction l with
  | nil => simp [insertDesc, List.filter, hxb]
  | cons y ys ih =>
    by_cases hxy : key x < key y
    · simp only [insertDesc, if_pos hxy, List.filter]
      rw [ih]
    · simp [insertDesc, if_neg hxy, List.filter, hxb]

/-- Stability of the fusion sort: elements with any fixed key keep exactly
their pre-sort relative order. -/
theorem pySortDescBy_filter {α : Type} (key : α → Rat) (c : Rat) (l : List α) :
    (pySortDescBy key l).filter (fun y => key y == c)
      = l.filter (fun y => key y == c) := by
  induction l with
  | nil => simp [pySortDescBy]
  | cons x xs ih =>
    by_cases hx : key x = c
    · rw [pySortDescBy, insertDesc_filter_eq key c x _ hx, ih]
      simp [List.filter, hx]
    · rw [pySortDescBy, insertDesc_filter_ne key c x _ hx, ih]
      have hxb : (key x == c) = false := by rwa [beq_eq_false_iff_ne]
      simp [List.filter, hxb]

/-! ## Properties of the batch partition -/

theorem batchesOf_nil {α : Type} (b : Nat) (hb : 0 < b) :
    batchesOf b ([] : List α) = [] := by
  have : ceilDiv 0 b = 0 := by
    unfold ceilDiv
    exact Nat.div_eq_of_lt (by omega)
  simp [batchesOf, this]

theorem batchesOf_of_le {α : Type} (b : Nat) (l : List α) (hb : 0 < b)
    (h0 : 0 < l.length) (h : l.length ≤ b) : batchesOf b l = [l] := by
  have hc : ceilDiv l.length b = 1 := by
    unfold ceilDiv
    have h1 : l.length + b - 1 = (l.length - 1) + b := by omega
    rw [h1, Nat.add_div_right _ hb, Nat.div_eq_of_lt (by omega)]
  simp [batchesOf, hc, List.range_succ, List.range_zero, Nat.zero_mul,
    List.drop_zero, List.take_of_length_le h]

theorem batchesOf_of_gt {α : Type} (b : Nat) (l : List α) (hb : 0 < b)
    (h : b < l.length) : batchesOf b l = l.take b :: batchesOf b (l.drop b) := by
  have hc : ceilDiv l.length b = ceilDiv (l.drop b).length b + 1 := by
    unfold ceilDiv
    rw [List.length_drop]
    have h1 : l.length + b - 1 = (l.length - b + b - 1) + b := by omega
    rw [h1, Nat.add_div_right _ hb]
  rw [batchesOf, hc, List.range_succ_eq_map, List.map_cons, List.map_map]
  congr 1
  · simp
  · rw [batchesOf]
    refine List.map_congr_left ?_
    intro i _
    simp only [Function.comp_apply]
    rw [List.drop_drop, Nat.succ_mul, Nat.add_comm (i * b) b]

theorem batchesOf_flatten {α : Type} (b : Nat) (hb : 0 < b) (l : List α) :
    (batchesOf b l).flatten = l := by
  rcases Nat.lt_or_ge b l.length with h | h
  · rw [batchesOf_of_gt b l hb h]
    have ih := batchesOf_flatten b hb (l.drop b)
    simp [ih, List.take_append_drop]
  · rcases Nat.eq_zero_or_pos l.length with h0 | h0
    · rw [List.eq_nil_of_length_eq_zero h0, batchesOf_nil b hb]
      rfl
    · rw [batchesOf_of_le b l hb h0 h]
      simp
termination_by l.length
decreasing_by simp [List.length_drop]; omega

theorem batchesOf_length {α : Type} (b : Nat) (l : List α) :
    (batchesOf b l).length = ceilDiv l.length b := by
  simp [batchesOf]

theorem ne_nil_of_mem_batchesOf {α : Type} (b : Nat) (hb : 0 < b)
    (l : List α) (batch : List α) (hmem : batch ∈ batchesOf b l) :
    batch ≠ [] := by
  rcases Nat.lt_or_ge b l.length with h | h
  · rw [batchesOf_of_gt b l hb h] at hmem
    rcases List.mem_cons.mp hmem with h1 | h1
    · subst h1
      have : (l.take b).length = b := by
        rw [List.length_take]
        omega
      intro hnil
      rw [hnil] at this
      simp at this
      omega
    · exact ne_nil_of_mem_batchesOf b hb (l.drop b) batch h1
  · rcases Nat.eq_zero_or_pos l.length with h0 | h0
    · rw [List.eq_nil_of_length_eq_zero h0, batchesOf_nil b hb] at hmem
      simp at hmem
    · rw [batchesOf_of_le b l hb h0 h] at hmem
      rcases List.mem_cons.mp hmem with h1 | h1
      · subst h1
        intro hnil
        rw [hnil] at h0
        simp at h0
      · simp at h1
termination_by l.length
decreasing_by simp [List.length_drop]; omega

theorem length_le_of_mem_batchesOf {α : Type} (b : Nat) (l : List α)
    (batch : List α) (hmem : batch ∈ batchesOf b l) : batch.length ≤ b := by
  rcases List.mem_map.mp hmem with ⟨i, _, hi⟩
  rw [← hi, List.length_take]
  omega

theorem flatten_map_length_le {α β : Type} (f : List α → List β)
    (bs : List (List α)) (h : ∀ x ∈ bs, (f x).length ≤ x.length) :
    ((bs.map f).flatten).length ≤ bs.flatten.length := by
  induction bs with
  | nil => simp
  | cons x xs ih =>
    simp only [List.map_cons, List.flatten_cons, List.length_append]
    have h1 := h x (List.mem_cons_self x xs)
    have h2 := ih (fun y hy => h y (List.mem_cons_of_mem x hy))
    omega

theorem flatten_map_length_eq {α β : Type} (f : List α → List β)
    (bs : List (List α)) (h : ∀ x ∈ bs, (f x).length = x.length) :
    ((bs.map f).flatten).length = bs.flatten.length := by
  induction bs with
  | nil => simp
  | cons x xs ih =>
    simp only [List.map_cons, List.flatten_cons, List.length_append]
    have h1 := h x (List.mem_cons_self x xs)
    have h2 := ih (fun y hy => h y (List.mem_cons_of_mem x hy))
    omega

theorem flatten_map_singleton {α β : Type} (g : List α → β)
    (bs : List (List α)) :
    ((bs.map (fun x => [g x])).flatten) = bs.map g := by
  induction bs with
  | nil => simp
  | cons x xs ih => simp [ih]

/-! ## Properties of `rerank_batch` -/

theorem mapResults_length (documents : List Doc) (rs : List RerankResult)
    (pos : Nat) (h : ∀ r ∈ rs, r.index < documents.length) :
    ∃ out, mapResults documents rs pos = some out ∧ out.length = rs.length := by
  induction rs generalizing pos with
  | nil => exact ⟨[], rfl, rfl⟩
  | cons r rs ih =>
    have hr := h r (List.mem_cons_self r rs)
    rcases ih (pos + 1) (fun x hx => h x (List.mem_cons_of_mem r hx)) with
      ⟨out, hout, hlen⟩
    refine ⟨{ documents.get ⟨r.index, hr⟩ with
                cohere_score := some r.relevance_score,
                rerank_position := some pos } :: out, ?_, ?_⟩
    · rw [mapResults, List.get?_eq_get hr, hout]
      rfl
    · simp [hlen]


theorem rerank_batch_fail (oracle : CohereOracle) (q : String)
    (documents : List Doc) (top_k : Nat) (hne : documents ≠ [])
    (hk : 0 < top_k)
    (hor : oracle q (batchTexts documents) (min top_k documents.length) = none) :
    rerank_batch oracle q documents top_k
      = (documents.take (min top_k documents.length),
         [batchCall q documents top_k]) := by
  have hemp : documents.isEmpty = false := by simp [List.isEmpty_iff, hne]
  have hk' : ¬ top_k = 0 := by omega
  rw [batchTexts] at hor
  simp only [rerank_batch, hemp, Bool.false_eq_true, if_false, if_neg hk',
    List.length_map, hor, batchTexts, batchCall]

theorem rerank_batch_badmap (oracle : CohereOracle) (q : String)
    (documents : List Doc) (top_k : Nat) (results : List RerankResult)
    (hne : documents ≠ []) (hk : 0 < top_k)
    (hor : oracle q (batchTexts documents) (min top_k documents.length)
      = some results)
    (hmap : mapResults documents results 1 = none) :
    rerank_batch oracle q documents top_k
      = (documents.take (min top_k documents.length),
         [batchCall q documents top_k]) := by
  have hemp : documents.isEmpty = false := by simp [List.isEmpty_iff, hne]
  have hk' : ¬ top_k = 0 := by omega
  rw [batchTexts] at hor
  simp only [rerank_batch, hemp, Bool.false_eq_true, if_false, if_neg hk',
    List.length_map, hor, hmap, batchTexts, batchCall]

theorem rerank_batch_success (oracle : CohereOracle) (q : String)
    (documents : List Doc) (top_k : Nat) (results : List RerankResult)
    (reranked : List Doc) (hne : documents ≠ []) (hk : 0 < top_k)
    (hor : oracle q (batchTexts documents) (min top_k documents.length)
      = some results)
    (hmap : mapResults documents results 1 = some reranked) :
    rerank_batch oracle q documents top_k
      = (reranked, [batchCall q documents top_k]) := by
  have hemp : documents.isEmpty = false := by simp [List.isEmpty_iff, hne]
  have hk' : ¬ top_k = 0 := by omega
  rw [batchTexts] at hor
  simp only [rerank_batch, hemp, Bool.false_eq_true, if_false, if_neg hk',
    List.length_map, hor, hmap, batchTexts, batchCall]

theorem rerank_batch_snd (oracle : CohereOracle) (q : String)
    (documents : List Doc) (top_k : Nat) (hne : documents ≠ [])
    (hk : 0 < top_k) :
    (rerank_batch oracle q documents top_k).2 = [batchCall q documents top_k] := by
  cases hor : oracle q (batchTexts documents) (min top_k documents.length) with
  | none => rw [rerank_batch_fail oracle q documents top_k hne hk hor]
  | some results =>
    cases hmap : mapResults documents results 1 with
    | none => rw [rerank_batch_badmap oracle q documents top_k results hne hk hor hmap]
    | some reranked =>
      rw [rerank_batch_success oracle q documents top_k results reranked hne hk hor hmap]

theorem rerank_batch_length (oracle : CohereOracle)
    (hcomp : CompleteOracle oracle) (q : String) (documents : List Doc)
    (top_k : Nat) (hne : documents ≠ []) (hk : 0 < top_k) :
    (rerank_batch oracle q documents top_k).1.length
      = min top_k documents.length := by
  cases hor : oracle q (batchTexts documents) (min top_k documents.length) with
  | none =>
    rw [rerank_batch_fail oracle q documents top_k hne hk hor]
    simp only [List.length_take]
    omega
  | some results =>
    have hkds : min top_k documents.length ≤ (batchTexts documents).length := by
      rw [batchTexts, List.length_map]
      omega
    have hc := hcomp q (batchTexts documents) (min top_k documents.length)
      hkds results hor
    have hidx : ∀ r ∈ results, r.index < documents.length := by
      intro r hr
      have := hc.2 r hr
      rwa [batchTexts, List.length_map] at this
    rcases mapResults_length documents results 1 hidx with ⟨out, hmap, hlen⟩
    rw [rerank_batch_success oracle q documents top_k results out hne hk hor hmap]
    rw [hlen, hc.1]

/-! ## Properties of `rerank_multiple_batches` -/

theorem rerank_multiple_batches_fst (oracle : CohereOracle) (q : String)
    (documents : List Doc) (final_top_k : Nat) (max_batch_size : Nat) :
    (rerank_multiple_batches oracle q documents final_top_k max_batch_size).1
      = (pySortDescBy cohereKey
          (all_batch_results oracle q documents final_top_k max_batch_size)).take
            final_top_k := by
  simp only [rerank_multiple_batches, all_batch_results, List.map_map]
  rfl

theorem rerank_multiple_batches_snd (oracle : CohereOracle) (q : String)
    (documents : List Doc) (final_top_k : Nat) (max_batch_size : Nat)
    (hb : 0 < max_batch_size) :
    (rerank_multiple_batches oracle q documents final_top_k max_batch_size).2
      = (batchesOf max_batch_size documents).map
          (fun batch => batchCall q batch (max 10 (final_top_k * 2))) := by
  simp only [rerank_multiple_batches, List.map_map]
  rw [← flatten_map_singleton (fun batch => batchCall q batch (max 10 (final_top_k * 2)))]
  congr 1
  refine List.map_congr_left ?_
  intro batch hmem
  have hne := ne_nil_of_mem_batchesOf max_batch_size hb documents batch hmem
  have hk : 0 < max 10 (final_top_k * 2) := by omega
  simp only [Function.comp_apply]
  exact rerank_batch_snd oracle q batch (max 10 (final_top_k * 2)) hne hk

theorem all_batch_results_length_le (oracle : CohereOracle)
    (hcomp : CompleteOracle oracle) (q : String) (documents : List Doc)
    (final_top_k : Nat) (max_batch_size : Nat) (hb : 0 < max_batch_size) :
    (all_batch_results oracle q documents final_top_k max_batch_size).length
      ≤ documents.length := by
  have h := flatten_map_length_le
    (fun batch => (rerank_batch oracle q batch (max 10 (final_top_k * 2))).1)
    (batchesOf max_batch_size documents) ?_
  · rw [all_batch_results]
    rw [batchesOf_flatten max_batch_size hb documents] at h
    exact h
  · intro batch hmem
    have hne := ne_nil_of_mem_batchesOf max_batch_size hb documents batch hmem
    have hk : 0 < max 10 (final_top_k * 2) := by omega
    rw [rerank_batch_length oracle hcomp q batch (max 10 (final_top_k * 2)) hne hk]
    omega

theorem all_batch_results_length_ge (oracle : CohereOracle)
    (hcomp : CompleteOracle oracle) (q : String) (documents : List Doc)
    (final_top_k : Nat) (max_batch_size : Nat) (hb : 0 < max_batch_size)
    (hn : max_batch_size < documents.length) :
    min final_top_k documents.length
      ≤ (all_batch_results oracle q documents final_top_k max_batch_size).length := by
  rcases Nat.lt_or_ge (max 10 (final_top_k * 2)) max_batch_size with hkb | hkb
  · -- the per-batch request is smaller than a full batch: the first (full)
    -- batch alone already yields `max 10 (final_top_k * 2)` results
    rw [all_batch_results, batchesOf_of_gt max_batch_size documents hb hn]
    simp only [List.map_cons, List.flatten_cons, List.length_append]
    have hne : documents.take max_batch_size ≠ [] := by
      intro h0
      have h1 := congrArg List.length h0
      rw [List.length_take] at h1
      simp only [List.length_nil] at h1
      omega
    have hk : 0 < max 10 (final_top_k * 2) := by omega
    rw [rerank_batch_length oracle hcomp q _ (max 10 (final_top_k * 2)) hne hk]
    rw [List.length_take]
    have hfc : final_top_k ≤ max 10 (final_top_k * 2) := by omega
    have hka : final_top_k < max_batch_size := lt_of_le_of_lt hfc hkb
    have hmin : min final_top_k documents.length
        ≤ min (max 10 (final_top_k * 2)) (min max_batch_size documents.length) := by
      refine le_inf (le_trans inf_le_left hfc) (le_inf ?_ inf_le_right)
      exact le_trans inf_le_left (le_of_lt hka)
    exact le_trans hmin (Nat.le_add_right _ _)
  · -- the per-batch request covers a whole batch: every document comes back
    have h := flatten_map_length_eq
      (fun batch => (rerank_batch oracle q batch (max 10 (final_top_k * 2))).1)
      (batchesOf max_batch_size documents) ?_
    · rw [all_batch_results]
      rw [batchesOf_flatten max_batch_size hb documents] at h
      omega
    · intro batch hmem
      have hne := ne_nil_of_mem_batchesOf max_batch_size hb documents batch hmem
      have hk : 0 < max 10 (final_top_k * 2) := by omega
      rw [rerank_batch_length oracle hcomp q batch (max 10 (final_top_k * 2)) hne hk]
      have := length_le_of_mem_batchesOf max_batch_size documents batch hmem
      omega

theorem rerank_multiple_batches_length (oracle : CohereOracle)
    (hcomp : CompleteOracle oracle) (q : String) (documents : List Doc)
    (final_top_k : Nat) (max_batch_size : Nat) (hb : 0 < max_batch_size)
    (hn : max_batch_size < documents.length) :
    (rerank_multiple_batches oracle q documents final_top_k max_batch_size).1.length
      = min final_top_k documents.length := by
  rw [rerank_multiple_batches_fst, List.length_take, pySortDescBy_length]
  have h1 := all_batch_results_length_le oracle hcomp q documents final_top_k
    max_batch_size hb
  have h2 := all_batch_results_length_ge oracle hcomp q documents final_top_k
    max_batch_size hb hn
  omega

/-! ## Claim theorems -/

/-- C1: For every candidate list with more than `maxBatchSize` elements (and
within the upstream pre-filter cap, so that the whole list enters the batching
step), given a reranking provider that answers each (clamped) `top_k` request
with exactly that many indexed results, `rerank_large_corpus` takes the
multi-batch path, which partitions the list into `ceil(n/maxBatchSize)`
consecutive batches whose concatenation is the original list, issues one
reranker call per batch with `top_k` of `max(10, finalCount * 2)` (clamped to
the batch length at the provider boundary), concatenates all batch results,
sorts the concatenation by relevance score descending, truncates to
`finalCount`, and ends with exactly `min(finalCount, n)` documents. -/
theorem rerank_partitions_and_fuses (oracle : CohereOracle)
    (hcomp : CompleteOracle oracle) (q : String) (documents : List Doc)
    (final_top_k pre_filter_top_k max_batch_size : Nat)
    (hb : 0 < max_batch_size) (hn : max_batch_size < documents.length)
    (hpf : documents.length ≤ pre_filter_top_k) :
    rerank_large_corpus oracle q documents final_top_k pre_filter_top_k
        max_batch_size
      = rerank_multiple_batches oracle q documents final_top_k max_batch_size
    ∧ (batchesOf max_batch_size documents).length
        = ceilDiv documents.length max_batch_size
    ∧ (batchesOf max_batch_size documents).flatten = documents
    ∧ (rerank_multiple_batches oracle q documents final_top_k max_batch_size).2
        = (batchesOf max_batch_size documents).map
            (fun batch => batchCall q batch (max 10 (final_top_k * 2)))
    ∧ (rerank_multiple_batches oracle q documents final_top_k max_batch_size).1
        = (pySortDescBy cohereKey
            (all_batch_results oracle q documents final_top_k
              max_batch_size)).take final_top_k
    ∧ List.Sorted (fun a b => cohereKey b ≤ cohereKey a)
        (rerank_multiple_batches oracle q documents final_top_k max_batch_size).1
    ∧ (rerank_multiple_batches oracle q documents final_top_k
        max_batch_size).1.length = min final_top_k documents.length := by
  have h0 : ¬ documents.length = 0 := by omega
  have hpre : pre_filtered documents pre_filter_top_k = documents := by
    rw [pre_filtered, if_neg (by omega)]
  refine ⟨?_, batchesOf_length max_batch_size documents,
    batchesOf_flatten max_batch_size hb documents,
    rerank_multiple_batches_snd oracle q documents final_top_k max_batch_size hb,
    rerank_multiple_batches_fst oracle q documents final_top_k max_batch_size,
    ?_, rerank_multiple_batches_length oracle hcomp q documents final_top_k
      max_batch_size hb hn⟩
  · simp only [rerank_large_corpus, hpre]
    rw [if_neg h0, if_neg (by omega : ¬ documents.length ≤ max_batch_size)]
  · rw [rerank_multiple_batches_fst]
    exact List.Pairwise.sublist (List.take_sublist _ _)
      (pySortDescBy_sorted cohereKey _)


theorem completeStubOracle_complete : CompleteOracle completeStubOracle := by
  intro q ds k hk rs h
  have hrs : rs = (List.range k).map (fun i => (⟨i, 1⟩ : RerankResult)) := by
    have := h
    simp only [completeStubOracle] at this
    exact (Option.some.injEq _ _).mp this.symm
  subst hrs
  constructor
  · simp
  · intro r hr
    rcases List.mem_map.mp hr with ⟨i, hi, hri⟩
    rw [← hri]
    exact lt_of_lt_of_le (List.mem_range.mp hi) hk

/-- Witness for C1 at a concrete input: three candidates, batch size 2,
final count 1. -/
theorem rerank_partitions_and_fuses_witness :
    (rerank_multiple_batches completeStubOracle "q" [wDoc 0, wDoc 1, wDoc 2]
      1 2).1.length = min 1 ([wDoc 0, wDoc 1, wDoc 2] : List Doc).length :=
  (rerank_partitions_and_fuses completeStubOracle completeStubOracle_complete
    "q" [wDoc 0, wDoc 1, wDoc 2] 1 3 2 (by decide) (by decide)
    (by decide)).2.2.2.2.2.2

theorem pre_filtered_ne_nil (documents : List Doc) (pre_filter_top_k : Nat)
    (hne : documents ≠ []) (hpk : 0 < pre_filter_top_k) :
    pre_filtered documents pre_filter_top_k ≠ [] := by
  rw [pre_filtered]
  split
  · next h =>
      intro h0
      have h1 := congrArg List.length h0
      rw [List.length_take, pySortDescBy_length] at h1
      simp only [List.length_nil] at h1
      omega
  · next h => exact hne

/-- C7 (amended): for every non-empty candidate list whose post-pre-filter
size fits within one `maxBatchSize` batch, with a positive `finalCount` and
`preFilterCount` as the configuration requires, `rerank_large_corpus` takes
the single-batch path and issues exactly one reranker call requesting
`top_k` of `finalCount` clamped to the batch length.  (The empty list issues
no call at all — see the counterexample.) -/
theorem single_batch_one_call (oracle : CohereOracle) (q : String)
    (documents : List Doc) (final_top_k pre_filter_top_k max_batch_size : Nat)
    (hfc : 0 < final_top_k)
    (hpk : 0 < pre_filter_top_k) (hne : documents ≠ [])
    (hfit : (pre_filtered documents pre_filter_top_k).length ≤ max_batch_size) :
    rerank_large_corpus oracle q documents final_top_k pre_filter_top_k
        max_batch_size
      = rerank_batch oracle q (pre_filtered documents pre_filter_top_k)
          final_top_k
    ∧ (rerank_large_corpus oracle q documents final_top_k pre_filter_top_k
        max_batch_size).2
      = [batchCall q (pre_filtered documents pre_filter_top_k) final_top_k] := by
  have h0 : ¬ documents.length = 0 := by
    intro h
    exact hne (List.eq_nil_of_length_eq_zero h)
  have heq : rerank_large_corpus oracle q documents final_top_k
      pre_filter_top_k max_batch_size
      = rerank_batch oracle q (pre_filtered documents pre_filter_top_k)
          final_top_k := by
    simp only [rerank_large_corpus]
    rw [if_neg h0, if_pos hfit]
  refine ⟨heq, ?_⟩
  rw [heq]
  exact rerank_batch_snd oracle q (pre_filtered documents pre_filter_top_k)
    final_top_k (pre_filtered_ne_nil documents pre_filter_top_k hne hpk) hfc

/-- Witness for C7 at a concrete input: one candidate, batch size 2. -/
theorem single_batch_one_call_witness :
    (rerank_large_corpus completeStubOracle "q" [wDoc 0] 1 1 2).2
      = [batchCall "q" (pre_filtered [wDoc 0] 1) 1] :=
  (single_batch_one_call completeStubOracle "q" [wDoc 0] 1 1 2
    (by decide) (by decide) (by decide) (by decide)).2

/-- Counterexample for C7 as frozen: the empty candidate list (whose length
is at most any `maxBatchSize`) causes `rerank_large_corpus` to return
immediately with zero reranker calls, not exactly one. -/
theorem single_batch_one_call_counterexample :
    (rerank_large_corpus completeStubOracle "q" [] 5 1000 1000).2 = []
    ∧ ¬ (rerank_large_corpus completeStubOracle "q" [] 5 1000 1000).2.length
        = 1 := by
  constructor
  · rfl
  · intro h
    simp only [rerank_large_corpus] at h
    simp at h


/-- C2: when the external rerank call for a batch fails, `rerank_batch`
returns (it cannot raise: the embedded function is total, mirroring the
generic `except` in the source) that batch's input candidates unchanged,
truncated to the clamped requested `top_k` — a prefix, so their original
ordering is preserved — and each of those candidates is a member of the
sorted fusion pool of `rerank_multiple_batches`, whose final output is
exactly the `finalCount`-prefix of that pool: a failed batch's candidates are
not dropped, only possibly cut by the final truncation. -/
theorem failed_batch_passthrough (oracle : CohereOracle) (q : String)
    (documents : List Doc) (final_top_k max_batch_size : Nat)
    (batch : List Doc) (hb : 0 < max_batch_size)
    (hmem : batch ∈ batchesOf max_batch_size documents)
    (hfail : oracle q (batchTexts batch)
        (min (max 10 (final_top_k * 2)) batch.length) = none) :
    rerank_batch oracle q batch (max 10 (final_top_k * 2))
        = (batch.take (min (max 10 (final_top_k * 2)) batch.length),
           [batchCall q batch (max 10 (final_top_k * 2))])
    ∧ (∀ x ∈ batch.take (min (max 10 (final_top_k * 2)) batch.length),
        x ∈ pySortDescBy cohereKey
          (all_batch_results oracle q documents final_top_k max_batch_size))
    ∧ (rerank_multiple_batches oracle q documents final_top_k
        max_batch_size).1
      = (pySortDescBy cohereKey
          (all_batch_results oracle q documents final_top_k
            max_batch_size)).take final_top_k := by
  have hne := ne_nil_of_mem_batchesOf max_batch_size hb documents batch hmem
  have hk : 0 < max 10 (final_top_k * 2) := by omega
  have hfb := rerank_batch_fail oracle q batch (max 10 (final_top_k * 2))
    hne hk hfail
  refine ⟨hfb, ?_,
    rerank_multiple_batches_fst oracle q documents final_top_k max_batch_size⟩
  intro x hx
  rw [mem_pySortDescBy, all_batch_results, List.mem_flatten]
  refine ⟨(rerank_batch oracle q batch (max 10 (final_top_k * 2))).1,
    List.mem_map.mpr ⟨batch, hmem, rfl⟩, ?_⟩
  rw [hfb]
  exact hx

/-- Witness for C2 at a concrete input: batch `[wDoc 2]` of a three-element
list split into batches of 2, with an always-failing provider. -/
theorem failed_batch_passthrough_witness :
    rerank_batch failingOracle "q" [wDoc 2] (max 10 (1 * 2))
      = ([wDoc 2].take (min (max 10 (1 * 2)) ([wDoc 2] : List Doc).length),
         [batchCall "q" [wDoc 2] (max 10 (1 * 2))]) :=
  (failed_batch_passthrough failingOracle "q" [wDoc 0, wDoc 1, wDoc 2] 1 2
    [wDoc 2] (by decide) (by decide) (by decide)).1

/-- C9 (amended): the cross-batch fusion sort is stable with respect to the
order of the concatenated per-batch reranker results (`all_batch_results`):
for any relevance-score value, the candidates carrying that score appear in
the fused pool in exactly their concatenation order, and the final output is
the `finalCount`-prefix of that pool.  (It is not stable with respect to the
pre-rerank order — see the counterexample, where a successful batch's
response order overrides it.) -/
theorem fusion_sort_stable (oracle : CohereOracle) (q : String)
    (documents : List Doc) (final_top_k max_batch_size : Nat) (c : Rat) :
    (rerank_multiple_batches oracle q documents final_top_k max_batch_size).1
      = (pySortDescBy cohereKey
          (all_batch_results oracle q documents final_top_k
            max_batch_size)).take final_top_k
    ∧ (pySortDescBy cohereKey
        (all_batch_results oracle q documents final_top_k
          max_batch_size)).filter (fun x => cohereKey x == c)
      = (all_batch_results oracle q documents final_top_k
          max_batch_size).filter (fun x => cohereKey x == c) :=
  ⟨rerank_multiple_batches_fst oracle q documents final_top_k max_batch_size,
   pySortDescBy_filter cohereKey c _⟩


/-- Counterexample for C9 as frozen: candidates with ids `[0, 1, 2]` (in that
pre-rerank order), batch size 2, where the provider returns the first batch's
two documents in swapped order with equal relevance scores.  The fused output
orders id 1 before id 0 although both carry the same relevance score and id 0
preceded id 1 before reranking. -/
theorem fusion_sort_stable_counterexample :
    (rerank_multiple_batches swapStubOracle "q" [wDoc 0, wDoc 1, wDoc 2]
        3 2).1.map Doc.id = [1, 0, 2]
    ∧ (rerank_multiple_batches swapStubOracle "q" [wDoc 0, wDoc 1, wDoc 2]
        3 2).1.map cohereKey = [1, 1, 1]
    ∧ ([wDoc 0, wDoc 1, wDoc 2].map Doc.id = [0, 1, 2]) := by
  decide

/-- C3: the adaptive pre-filter policy is the pure step function with
thresholds 15000 and 5000 (lower bounds inclusive) and values 1500, 800
and 500. -/
theorem adaptive_prefilter_step (hint : Int) :
    (15000 ≤ hint → targetRetrievalCount hint = 1500)
    ∧ (5000 ≤ hint ∧ hint < 15000 → targetRetrievalCount hint = 800)
    ∧ (hint < 5000 → targetRetrievalCount hint = 500) := by
  unfold targetRetrievalCount
  refine ⟨fun h => ?_, fun h => ?_, fun h => ?_⟩
  · rw [if_pos h]
  · rw [if_neg (by omega), if_pos h.1]
  · rw [if_neg (by omega), if_neg (by omega)]

/-- Witness for C3 at the spec's probe points, including both inclusive
lower boundaries. -/
theorem adaptive_prefilter_step_witness :
    targetRetrievalCount 20000 = 1500 ∧ targetRetrievalCount 7000 = 800
    ∧ targetRetrievalCount 100 = 500 ∧ targetRetrievalCount 5000 = 800
    ∧ targetRetrievalCount 15000 = 1500 :=
  ⟨(adaptive_prefilter_step 20000).1 (by decide),
   (adaptive_prefilter_step 7000).2.1 (by decide),
   (adaptive_prefilter_step 100).2.2 (by decide),
   (adaptive_prefilter_step 5000).2.1 (by decide),
   (adaptive_prefilter_step 15000).1 (by decide)⟩

/-- C4 (amended): the core performs no bounds validation on the requested
match count: every call issues the vector-store RPC exactly once with the
caller's count unchanged, whatever its value, and the pipeline's own adaptive
pre-filter always requests counts strictly above 100. -/
theorem match_count_forwarded (store : VectorOracle)
    (query_embedding : List Rat) (match_count : Nat) :
    (search_similar_job_descriptions store query_embedding match_count).2
        = [(query_embedding, match_count)]
    ∧ (∀ corpus_size : Int, 100 < targetRetrievalCount corpus_size) := by
  refine ⟨rfl, fun cs => ?_⟩
  unfold targetRetrievalCount
  split_ifs <;> omega

/-- Counterexample for C4 as frozen: the pipeline itself derives the
out-of-bounds count 1500 for a 20000-document corpus hint, and the search
call with count 1500 proceeds normally and returns the store's records —
there is no `InvalidMatchCount` failure. -/
theorem match_count_validation_counterexample :
    targetRetrievalCount 20000 = 1500
    ∧ ¬ (1 ≤ 1500 ∧ 1500 ≤ 100)
    ∧ search_similar_job_descriptions (fun _ _ => some [wDoc 0]) [] 1500
        = ([wDoc 0], [([], 1500)]) := by
  refine ⟨by decide, by decide, rfl⟩

/-- C5 (amended): with reranking disabled, the pipeline returns the vector
store's candidates in the order the store returned them, truncated to
`finalCount` — it performs no sorting of its own; in particular, when the
store's list is already descending in `similarityScore`, so is the output. -/
theorem no_rerank_truncates (store : VectorOracle)
    (cohere : Option CohereOracle) (title department : String)
    (requirements : List String) (query_embedding : List Rat)
    (final_count initial_retrieval : Nat) (cands : List Doc)
    (hs : store query_embedding initial_retrieval = some cands)
    (hne : cands ≠ []) :
    search_with_reranking store cohere title department requirements
        query_embedding final_count initial_retrieval false
      = cands.take final_count
    ∧ (List.Sorted (fun a b => similarityKey b ≤ similarityKey a) cands →
        List.Sorted (fun a b => similarityKey b ≤ similarityKey a)
          (search_with_reranking store cohere title department requirements
            query_embedding final_count initial_retrieval false)) := by
  have hemp : cands.isEmpty = false := by simp [List.isEmpty_iff, hne]
  have heq : search_with_reranking store cohere title department requirements
      query_embedding final_count initial_retrieval false
      = cands.take final_count := by
    simp only [search_with_reranking, search_similar_job_descriptions, hs,
      hemp, Bool.false_eq_true, if_false]
  refine ⟨heq, fun hsort => ?_⟩
  rw [heq]
  exact List.Pairwise.sublist (List.take_sublist _ _) hsort

/-- Witness for C5 at a concrete input: a two-candidate store response with
equal similarity scores, truncated to one. -/
theorem no_rerank_truncates_witness :
    search_with_reranking (fun _ _ => some [wDoc 0, wDoc 1]) none "t" "d" []
        [] 1 5 false = ([wDoc 0, wDoc 1] : List Doc).take 1
    ∧ List.Sorted (fun a b => similarityKey b ≤ similarityKey a)
        (search_with_reranking (fun _ _ => some [wDoc 0, wDoc 1]) none "t"
          "d" [] [] 1 5 false) := by
  have h := no_rerank_truncates (fun _ _ => some [wDoc 0, wDoc 1]) none "t"
    "d" [] [] 1 5 [wDoc 0, wDoc 1] rfl (by decide)
  exact ⟨h.1, h.2 (by decide)⟩


/-- Counterexample for C5 as frozen: a store that returns an ascending pair
is passed through unsorted, so the output is not in descending
`similarityScore` order. -/
theorem no_rerank_sorting_counterexample :
    search_with_reranking (fun _ _ => some [loDoc, hiDoc]) none "t" "d" []
        [] 2 10 false = [loDoc, hiDoc]
    ∧ ¬ List.Sorted (fun a b => similarityKey b ≤ similarityKey a)
        [loDoc, hiDoc] := by
  decide

/-- C6: whenever the vector store raises (modelled by the oracle returning
`none` on every call), the pipeline returns the empty sequence instead of
propagating the failure, for every input and configuration. -/
theorem vector_failure_empty (store : VectorOracle)
    (cohere : Option CohereOracle) (title department : String)
    (requirements : List String) (query_embedding : List Rat)
    (final_count initial_retrieval : Nat) (use_reranking : Bool)
    (hraise : ∀ e c, store e c = none) :
    search_with_reranking store cohere title department requirements
      query_embedding final_count initial_retrieval use_reranking = [] := by
  simp only [search_with_reranking, search_similar_job_descriptions, hraise]
  rfl

/-- Witness for C6 at a concrete input: an always-raising store. -/
theorem vector_failure_empty_witness :
    search_with_reranking (fun _ _ => none) none "t" "d" [] [] 5 10 true
      = [] :=
  vector_failure_empty (fun _ _ => none) none "t" "d" [] [] 5 10 true
    (fun _ _ => rfl)

set_option maxRecDepth 4000 in
/-- Counterexample for C8 as frozen: the reranker's query-construction step
does not receive the SearchText string: already on the input
title `"A"`, department `"B"`, requirements `["C"]`, the query string it
builds (`build_enhanced_query`) differs from the derived SearchText. -/
theorem searchtext_reranker_counterexample :
    build_enhanced_query "A" "B" ["C"] 2024 ≠ searchText "A" "B" ["C"] := by
  decide

/-- C8 (amended): the derived SearchText is the single-space concatenation of
title, department and the space-joined requirements; its construction is
deterministic (equal inputs give byte-for-byte equal strings); and it is the
literal string `search_and_generate_tool` hands to the embedding step.  The
reranker's query construction receives the same three fields but builds a
different string (see the counterexample). -/
theorem searchtext_deterministic_and_embedded (net : EmbedOracle)
    (has_api_key : Bool) (store : VectorOracle) (title department : String)
    (requirements : List String) (t' d' : String) (r' : List String)
    (h1 : title = t') (h2 : department = d') (h3 : requirements = r') :
    searchText title department requirements
        = title ++ " " ++ department ++ " " ++ pyJoin " " requirements
    ∧ searchText title department requirements = searchText t' d' r'
    ∧ (search_and_generate_tool net has_api_key store title department
        requirements).2.2.2 = searchText title department requirements := by
  refine ⟨rfl, by rw [h1, h2, h3], ?_⟩
  rcases hres : embed net has_api_key (searchText title department
    requirements) with ⟨res, called⟩
  cases res with
  | error e => simp [search_and_generate_tool, hres]
  | ok v => simp [search_and_generate_tool, hres]

/-- Witness for C8 at a concrete input. -/
theorem searchtext_deterministic_and_embedded_witness :
    searchText "T" "D" ["R1", "R2"]
        = "T" ++ " " ++ "D" ++ " " ++ pyJoin " " ["R1", "R2"]
    ∧ searchText "T" "D" ["R1", "R2"] = searchText "T" "D" ["R1", "R2"]
    ∧ (search_and_generate_tool (fun _ => none) true (fun _ _ => none) "T"
        "D" ["R1", "R2"]).2.2.2 = searchText "T" "D" ["R1", "R2"] :=
  searchtext_deterministic_and_embedded (fun _ => none) true
    (fun _ _ => none) "T" "D" ["R1", "R2"] "T" "D" ["R1", "R2"] rfl rfl rfl


theorem blankStr_append (a b : String) (ha : blankStr a) (hb : blankStr b) :
    blankStr (a ++ b) := by
  intro c hc
  rw [String.data_append] at hc
  rcases List.mem_append.mp hc with h | h
  · exact ha c h
  · exact hb c h

theorem blankStr_pyJoin (sep : String) (hsep : blankStr sep)
    (l : List String) (h : ∀ s ∈ l, blankStr s) : blankStr (pyJoin sep l) := by
  induction l with
  | nil =>
    intro c hc
    exact absurd hc (List.not_mem_nil c)
  | cons x xs ih =>
    cases xs with
    | nil => exact h x (List.mem_cons_self x [])
    | cons y ys =>
      refine blankStr_append _ _ (blankStr_append _ _ ?_ hsep) ?_
      · exact h x (List.mem_cons_self x (y :: ys))
      · exact ih (fun s hs => h s (List.mem_cons_of_mem x hs))

/-- C10: when title, department and every requirement are empty or
whitespace-only, the derived search text is whitespace-only, `embed` rejects
it with the input-validation `ValueError` before any network call, and the
tool run ends in an error outcome with no vector-store call and no result
list. -/
theorem blank_query_fails_at_embed (net : EmbedOracle) (has_api_key : Bool)
    (store : VectorOracle) (title department : String)
    (requirements : List String) (ht : blankStr title) (hd : blankStr department)
    (hr : ∀ s ∈ requirements, blankStr s) :
    blankStr (searchText title department requirements)
    ∧ embed net has_api_key (searchText title department requirements)
        = (Except.error EmbedError.valueError, false)
    ∧ search_and_generate_tool net has_api_key store title department
        requirements
      = (ToolOutcome.errorMessage EmbedError.valueError, false, [],
         searchText title department requirements) := by
  have hsp : blankStr " " := by decide
  have hb : blankStr (searchText title department requirements) := by
    unfold searchText
    exact blankStr_append _ _
      (blankStr_append _ _
        (blankStr_append _ _ (blankStr_append _ _ ht hsp) hd) hsp)
      (blankStr_pyJoin " " hsp requirements hr)
  have hall : (searchText title department requirements).toList.all
      Char.isWhitespace = true :=
    List.all_eq_true.mpr (fun c hc => hb c hc)
  have hemb : embed net has_api_key (searchText title department requirements)
      = (Except.error EmbedError.valueError, false) := by
    unfold embed
    rw [if_pos hall]
  exact ⟨hb, hemb, by simp [search_and_generate_tool, hemb]⟩

/-- Witness for C10 at a concrete input: empty title, a space department and
a tab requirement. -/
theorem blank_query_fails_at_embed_witness :
    blankStr (searchText "" " " ["\t"])
    ∧ embed (fun _ => none) true (searchText "" " " ["\t"])
        = (Except.error EmbedError.valueError, false)
    ∧ search_and_generate_tool (fun _ => none) true (fun _ _ => none) "" " "
        ["\t"]
      = (ToolOutcome.errorMessage EmbedError.valueError, false, [],
         searchText "" " " ["\t"]) :=
  blank_query_fails_at_embed (fun _ => none) true (fun _ _ => none) "" " "
    ["\t"] (by decide) (by decide) (by decide)
